import Mathlib

/-!
Verification of the byte-level codec and transaction-primitive helpers
(hex codec, endianness helpers, script classifier, opcode decoder, UTXO
model) against their natural-language specification.  Bytes are modelled
as `Nat` values below 256, byte sequences as `List Nat`, and text as
`List Char`.  Fallible operations return `Except`; a Rust panic (an
out-of-range slice index, or an arithmetic underflow in a debug build)
is modelled explicitly so it can be distinguished from a returned error.
-/

namespace RustWeek2

/-- Result of running a Rust function that may panic: either a normal
return value or a panic carrying the panic message. -/
inductive ExecResult (α : Type) where
  | ok (a : α)
  | panicked (msg : String)
deriving DecidableEq, Repr

/-- Decidable equality for `Except`, so results of the fallible
operations can be compared by `decide`. -/
instance instDecEqExcept {ε α : Type} [DecidableEq ε] [DecidableEq α] :
    DecidableEq (Except ε α) := fun x y =>
  match x, y with
  | Except.ok a, Except.ok b =>
    if h : a = b then Decidable.isTrue (by rw [h])
    else Decidable.isFalse (fun hh => h (Except.ok.inj hh))
  | Except.error a, Except.error b =>
    if h : a = b then Decidable.isTrue (by rw [h])
    else Decidable.isFalse (fun hh => h (Except.error.inj hh))
  | Except.ok _, Except.error _ => Decidable.isFalse (fun hh => Except.noConfusion hh)
  | Except.error _, Except.ok _ => Decidable.isFalse (fun hh => Except.noConfusion hh)

/-- Script spending-condition categories, from `enum ScriptType`. -/
inductive ScriptType where
  | P2PKH
  | P2WPKH
  | Unknown
deriving DecidableEq, Repr

/-- Embedding of `classify_script`: match on the script length; for
length 3 match on the first byte (`script[0]`, safe since the length is
3), `0x00` giving P2WPKH and anything else P2PKH; every other length
gives Unknown. -/
def classify_script (script : List Nat) : ScriptType :=
  match script.length with
  | 3 =>
    match script.headD 0 with
    | 0 => ScriptType.P2WPKH
    | _ => ScriptType.P2PKH
  | _ => ScriptType.Unknown

/-- Embedding of `to_big_endian`: copy the input slice to a fresh vector
and reverse it; the input is not mutated. -/
def to_big_endian (bytes : List Nat) : List Nat :=
  bytes.reverse

/-- Embedding of `swap_endian_u32`, i.e. `u32::to_le_bytes`: the four
bytes of a 32-bit value, least significant first. -/
def swap_endian_u32 (num : Nat) : List Nat :=
  [num % 256, num / 256 % 256, num / 65536 % 256, num / 16777216 % 256]

/-- Interpreting a byte sequence as a little-endian integer (first byte
least significant); the decode operation inverse to `swap_endian_u32`. -/
def leValue (bytes : List Nat) : Nat :=
  bytes.foldr (fun b acc => b + 256 * acc) 0

/-- Embedding of `read_pushdata`: the unchecked subslice `&script[2..]`.
It returns the suffix from index 2 when the script has at least 2 bytes
and panics with Rust's slice out-of-range message otherwise. -/
def read_pushdata (script : List Nat) : ExecResult (List Nat) :=
  if 2 ≤ script.length then
    ExecResult.ok (script.drop 2)
  else
    ExecResult.panicked
      ("range start index 2 out of range for slice of length " ++ toString script.length)

/-- Script opcodes, from `enum Opcode`: OP_CHECKSIG, OP_DUP, and the
catch-all variant for unrecognized byte values. -/
inductive Opcode where
  | OpChecksig
  | OpDup
  | OpInvalid
deriving DecidableEq, Repr

/-- Embedding of `Opcode::from_byte`: `0xac` decodes to OpChecksig,
`0x76` to OpDup, `0x00` is an error with message "Invalid opcode: 0x00",
and every other byte decodes to OpInvalid. -/
def Opcode.from_byte (byte : Nat) : Except String Opcode :=
  match byte with
  | 0xac => Except.ok Opcode.OpChecksig
  | 0x76 => Except.ok Opcode.OpDup
  | 0x00 => Except.error ("Invalid opcode: 0x00")
  | _ => Except.ok Opcode.OpInvalid

/-- Embedding of `struct UTXO`: raw txid bytes, a 32-bit output index
and a 64-bit value in satoshis. -/
structure UTXO where
  txid : List Nat
  vout : Nat
  value : Nat
deriving DecidableEq, Repr

/-- Embedding of `consume_utxo`: take the UTXO by value, set its value
field to 0 and return it. -/
def consume_utxo (utxo : UTXO) : UTXO :=
  { utxo with value := 0 }

/-- Embedding of `apply_fee` under debug-build semantics: `*balance -= fee`
on `u64` subtracts when the fee fits and panics on underflow, modelled
as `none`. -/
def apply_fee (balance fee : Nat) : Option Nat :=
  if fee ≤ balance then some (balance - fee) else none

/-- C1: `classify_script` returns P2WPKH exactly on 3-byte scripts whose
first byte is 0x00, P2PKH on 3-byte scripts with any non-zero first byte
regardless of the remaining bytes, and Unknown for every other length,
including the empty sequence. -/
theorem c1_classify_script (script : List Nat) :
    (script.length = 3 → script.headD 0 = 0 →
      classify_script script = ScriptType.P2WPKH)
    ∧ (script.length = 3 → script.headD 0 ≠ 0 →
      classify_script script = ScriptType.P2PKH)
    ∧ (script.length ≠ 3 → classify_script script = ScriptType.Unknown) := by
  refine ⟨fun hlen hhd => ?_, fun hlen hhd => ?_, fun hlen => ?_⟩
  · unfold classify_script
    rw [hlen, hhd]
  · unfold classify_script
    rw [hlen]
    cases h : script.headD 0 with
    | zero => exact absurd h hhd
    | succ n => rfl
  · unfold classify_script
    cases h : script.length with
    | zero => rfl
    | succ n =>
      cases n with
      | zero => rfl
      | succ m =>
        cases m with
        | zero => rfl
        | succ k =>
          cases k with
          | zero => exact absurd h hlen
          | succ j => rfl

/-- Witness for C1: the spec's classification table, discharged through
`c1_classify_script` at concrete scripts. -/
theorem c1_classify_script_witness :
    classify_script [0x00, 0xAA, 0xBB] = ScriptType.P2WPKH
    ∧ classify_script [0x01, 0xAA, 0xBB] = ScriptType.P2PKH
    ∧ classify_script [0xAA, 0xBB] = ScriptType.Unknown
    ∧ classify_script [] = ScriptType.Unknown :=
  ⟨(c1_classify_script [0x00, 0xAA, 0xBB]).1 (by decide) (by decide),
   (c1_classify_script [0x01, 0xAA, 0xBB]).2.1 (by decide) (by decide),
   (c1_classify_script [0xAA, 0xBB]).2.2 (by decide),
   (c1_classify_script []).2.2 (by decide)⟩

set_option maxRecDepth 8192 in
/-- C2: `Opcode::from_byte` maps 0xac to OpChecksig, 0x76 to OpDup,
fails on 0x00 with exactly "Invalid opcode: 0x00", succeeds with the
unrecognized variant on each of the remaining 253 byte values, and errs
for 0x00 only. -/
theorem c2_from_byte :
    Opcode.from_byte 0xac = Except.ok Opcode.OpChecksig
    ∧ Opcode.from_byte 0x76 = Except.ok Opcode.OpDup
    ∧ Opcode.from_byte 0x00 = Except.error ("Invalid opcode: 0x00")
    ∧ (∀ b : Nat, b < 256 → b ≠ 0xac → b ≠ 0x76 → b ≠ 0x00 →
        Opcode.from_byte b = Except.ok Opcode.OpInvalid)
    ∧ ((Finset.range 256).filter
        (fun b => Opcode.from_byte b = Except.ok Opcode.OpInvalid)).card = 253
    ∧ (∀ b : Nat, b ≠ 0x00 → ∀ e, Opcode.from_byte b ≠ Except.error e) := by
  refine ⟨rfl, rfl, rfl, ?_, by decide, ?_⟩
  · decide
  · intro b hb e
    unfold Opcode.from_byte
    match b, hb with
    | 0xac, _ => simp
    | 0x76, _ => simp
    | 0x00, hb => exact absurd rfl hb
    | n + 1, _ =>
      split
      · simp
      · simp
      · simp_all
      · simp

/-- Witness for C2: the quantified parts of `c2_from_byte` applied at
the concrete byte 0x01. -/
theorem c2_from_byte_witness :
    Opcode.from_byte 0x01 = Except.ok Opcode.OpInvalid
    ∧ Opcode.from_byte 0x01 ≠ Except.error ("Invalid opcode: 0x00") :=
  ⟨(c2_from_byte.2.2.2.1) 0x01 (by decide) (by decide) (by decide) (by decide),
   (c2_from_byte.2.2.2.2.2) 0x01 (by decide) ("Invalid opcode: 0x00")⟩

/-- C3 counterexample: on the empty script `read_pushdata` panics with
Rust's out-of-range message instead of returning a defined error value
(its Rust signature `&[u8] -> &[u8]` has no error channel at all). -/
theorem c3_read_pushdata_counterexample :
    read_pushdata [] =
      ExecResult.panicked ("range start index 2 out of range for slice of length 0") := by
  rfl

/-- C3 amended: `read_pushdata` returns the subsequence from index 2 to
the end when the script has at least 2 bytes (empty at length exactly 2),
and on fewer than 2 bytes it traps: it panics with the slice
out-of-range message rather than yielding an error result. -/
theorem c3_read_pushdata (script : List Nat) :
    (2 ≤ script.length → read_pushdata script = ExecResult.ok (script.drop 2))
    ∧ (script.length < 2 →
        read_pushdata script =
          ExecResult.panicked
            ("range start index 2 out of range for slice of length "
              ++ toString script.length)) := by
  constructor
  · intro h
    simp [read_pushdata, h]
  · intro h
    simp [read_pushdata, Nat.not_le.mpr h]

/-- Witness for C3: the spec's pushdata example and the length-1 panic,
discharged through `c3_read_pushdata`. -/
theorem c3_read_pushdata_witness :
    read_pushdata [0xAA, 0xBB, 0x01, 0x02, 0x03] = ExecResult.ok [0x01, 0x02, 0x03]
    ∧ read_pushdata [0xAA] =
        ExecResult.panicked ("range start index 2 out of range for slice of length 1") :=
  ⟨(c3_read_pushdata [0xAA, 0xBB, 0x01, 0x02, 0x03]).1 (by decide),
   (c3_read_pushdata [0xAA]).2 (by decide)⟩

/-- C6: `swap_endian_u32` produces exactly 4 bytes, least significant
first, and interpreting them as a little-endian integer reconstructs the
input for every value below 2^32. -/
theorem c6_swap_endian_u32 (v : Nat) (hv : v < 4294967296) :
    (swap_endian_u32 v).length = 4
    ∧ (∀ b ∈ swap_endian_u32 v, b < 256)
    ∧ leValue (swap_endian_u32 v) = v := by
  refine ⟨rfl, ?_, ?_⟩
  · intro b hb
    simp only [swap_endian_u32, List.mem_cons, List.not_mem_nil, or_false] at hb
    rcases hb with h | h | h | h <;> subst h <;> omega
  · simp only [swap_endian_u32, leValue, List.foldr]
    omega

/-- Witness for C6: `c6_swap_endian_u32` at the concrete value
0x12345678. -/
theorem c6_swap_endian_u32_witness :
    (swap_endian_u32 0x12345678).length = 4
    ∧ (∀ b ∈ swap_endian_u32 0x12345678, b < 256)
    ∧ leValue (swap_endian_u32 0x12345678) = 0x12345678 :=
  c6_swap_endian_u32 0x12345678 (by decide)

/-- C7: `to_big_endian` returns the input bytes in reversed order (a
fresh sequence, the input itself untouched in the pure embedding), and
applying it twice is the identity. -/
theorem c7_to_big_endian (bytes : List Nat) :
    to_big_endian bytes = bytes.reverse
    ∧ to_big_endian (to_big_endian bytes) = bytes :=
  ⟨rfl, List.reverse_reverse bytes⟩

/-- C8: `consume_utxo` zeroes the value field, leaves txid and vout
unchanged, is idempotent, and returns an already-consumed UTXO (value 0)
unchanged. -/
theorem c8_consume_utxo (u : UTXO) :
    (consume_utxo u).value = 0
    ∧ (consume_utxo u).txid = u.txid
    ∧ (consume_utxo u).vout = u.vout
    ∧ consume_utxo (consume_utxo u) = consume_utxo u
    ∧ (u.value = 0 → consume_utxo u = u) := by
  refine ⟨rfl, rfl, rfl, rfl, fun h => ?_⟩
  cases u with
  | mk txid vout value =>
    simp only [consume_utxo]
    simp_all

/-- Witness for C8: the spec's value-500 example, discharged through
`c8_consume_utxo`, together with the already-spent case at value 0. -/
theorem c8_consume_utxo_witness :
    (consume_utxo (UTXO.mk [0x01] 7 500)).value = 0
    ∧ consume_utxo (consume_utxo (UTXO.mk [0x01] 7 500))
        = consume_utxo (UTXO.mk [0x01] 7 500)
    ∧ consume_utxo (UTXO.mk [0x01] 7 0) = UTXO.mk [0x01] 7 0 :=
  ⟨(c8_consume_utxo (UTXO.mk [0x01] 7 500)).1,
   (c8_consume_utxo (UTXO.mk [0x01] 7 500)).2.2.2.1,
   (c8_consume_utxo (UTXO.mk [0x01] 7 0)).2.2.2.2 rfl⟩

/-- C10: `apply_fee` is an unchecked subtraction: when the fee is at
most the balance it leaves the balance equal to balance minus fee, and
when the fee exceeds the balance the debug-build subtraction underflows
(a panic, modelled as `none`), so fee ≤ balance is the precondition
under which the failure branch is unreachable. -/
theorem c10_apply_fee (balance fee : Nat) :
    (fee ≤ balance → apply_fee balance fee = some (balance - fee))
    ∧ (balance < fee → apply_fee balance fee = none) := by
  constructor
  · intro h
    simp [apply_fee, h]
  · intro h
    simp [apply_fee, Nat.not_le.mpr h]

/-- Witness for C10: `c10_apply_fee` at balance 500 and fee 200, and at
balance 100 and fee 200. -/
theorem c10_apply_fee_witness :
    apply_fee 500 200 = some 300 ∧ apply_fee 100 200 = none :=
  ⟨(c10_apply_fee 500 200).1 (by decide), (c10_apply_fee 100 200).2 (by decide)⟩

/-- Lower-case hex digit character for a nibble: digits 0-9 map to
characters 48-57 and nibbles 10-15 to characters 97-102 (a-f). -/
def hexDigitChar (n : Nat) : Char :=
  if n < 10 then Char.ofNat (48 + n) else Char.ofNat (87 + n)

/-- Embedding of `hex::encode` as used by `bytes_to_hex`: each byte
becomes two lower-case hex characters, high nibble first. -/
def bytes_to_hex : List Nat → List Char
  | [] => []
  | b :: bs => hexDigitChar (b / 16) :: hexDigitChar (b % 16) :: bytes_to_hex bs

/-- Value of one hex digit character, accepting 0-9, a-f and A-F, as the
hex crate does; `none` on any other character. -/
def fromHexDigit (c : Char) : Option Nat :=
  if 48 ≤ c.toNat ∧ c.toNat ≤ 57 then some (c.toNat - 48)
  else if 97 ≤ c.toNat ∧ c.toNat ≤ 102 then some (c.toNat - 87)
  else if 65 ≤ c.toNat ∧ c.toNat ≤ 70 then some (c.toNat - 55)
  else none

/-- Embedding of `hex::FromHexError`: the first invalid character with
its position, or an odd input length. -/
inductive FromHexError where
  | invalidHexCharacter (c : Char) (index : Nat)
  | oddLength
deriving DecidableEq, Repr

/-- Human-readable description of a `FromHexError`, as rendered by the
hex crate when the error is formatted into a message. -/
def FromHexError.message : FromHexError → String
  | FromHexError.invalidHexCharacter c index =>
      "Invalid character " ++ String.mk [c] ++ " at position " ++ toString index
  | FromHexError.oddLength => "Odd number of digits"

/-- Decoding loop of `hex::decode` over an even-length character list:
consume two characters per byte, reporting the first invalid character
with its position. The catch-all arm is only reached on lists of length
at most 1, which the caller's length check excludes. -/
def hexDecodeLoop : List Char → Nat → Except FromHexError (List Nat)
  | c1 :: c2 :: rest, i =>
    match fromHexDigit c1 with
    | none => Except.error (FromHexError.invalidHexCharacter c1 i)
    | some hi =>
      match fromHexDigit c2 with
      | none => Except.error (FromHexError.invalidHexCharacter c2 (i + 1))
      | some lo =>
        match hexDecodeLoop rest (i + 2) with
        | Except.error e => Except.error e
        | Except.ok bs => Except.ok ((16 * hi + lo) :: bs)
  | _, _ => Except.ok []

/-- Embedding of `hex::decode`: reject odd-length input, then decode
character pairs into bytes. -/
def hexDecode (hex : List Char) : Except FromHexError (List Nat) :=
  if hex.length % 2 ≠ 0 then Except.error FromHexError.oddLength
  else hexDecodeLoop hex 0

/-- Embedding of `hex_to_bytes`: `hex::decode` surfaced with its
structured error. -/
def hex_to_bytes (hex : List Char) : Except FromHexError (List Nat) :=
  hexDecode hex

/-- Embedding of `decode_hex`: `hex::decode` with the failure wrapped
into the message string prefixed by "Failed to decode hex: ". -/
def decode_hex (hex_str : List Char) : Except String (List Nat) :=
  (hexDecode hex_str).mapError (fun e => "Failed to decode hex: " ++ e.message)

/-- The sixteen characters encoding may produce: the lower-case hex
digits, i.e. the decimal digit characters followed by a through f. -/
def lowerHexChars : List Char :=
  (List.range 16).map hexDigitChar

theorem fromHexDigit_hexDigitChar : ∀ n < 16, fromHexDigit (hexDigitChar n) = some n := by
  decide

theorem hexDigitChar_mem_lower : ∀ n < 16, hexDigitChar n ∈ lowerHexChars := by
  decide

theorem lowerHex_eval : ∀ c ∈ lowerHexChars,
    (fromHexDigit c).isSome ∧ (fromHexDigit c).getD 0 < 16
      ∧ hexDigitChar ((fromHexDigit c).getD 0) = c := by
  decide

theorem lowerHex_spec {c : Char} (hc : c ∈ lowerHexChars) :
    ∃ n, fromHexDigit c = some n ∧ n < 16 ∧ hexDigitChar n = c := by
  have h := lowerHex_eval c hc
  cases hfd : fromHexDigit c with
  | none => rw [hfd] at h; simp at h
  | some n =>
    rw [hfd] at h
    exact ⟨n, rfl, by simpa using h.2.1, by simpa using h.2.2⟩

theorem bytes_to_hex_length : ∀ B : List Nat, (bytes_to_hex B).length = 2 * B.length
  | [] => rfl
  | _ :: bs => by
    simp only [bytes_to_hex, List.length_cons, bytes_to_hex_length bs]
    omega

theorem bytes_to_hex_lower : ∀ B : List Nat, (∀ b ∈ B, b < 256) →
    ∀ c ∈ bytes_to_hex B, c ∈ lowerHexChars
  | [], _, c, hc => by simp [bytes_to_hex] at hc
  | b :: bs, hB, c, hc => by
    have hb : b < 256 := hB b (List.mem_cons_self b bs)
    simp only [bytes_to_hex, List.mem_cons] at hc
    rcases hc with h | h | h
    · exact h ▸ hexDigitChar_mem_lower (b / 16) (by omega)
    · exact h ▸ hexDigitChar_mem_lower (b % 16) (by omega)
    · exact bytes_to_hex_lower bs (fun x hx => hB x (List.mem_cons_of_mem b hx)) c h

theorem hexDecodeLoop_encode : ∀ (B : List Nat), (∀ b ∈ B, b < 256) →
    ∀ i, hexDecodeLoop (bytes_to_hex B) i = Except.ok B
  | [], _, _ => rfl
  | b :: bs, hB, i => by
    have hb : b < 256 := hB b (List.mem_cons_self b bs)
    have h1 : fromHexDigit (hexDigitChar (b / 16)) = some (b / 16) :=
      fromHexDigit_hexDigitChar (b / 16) (by omega)
    have h2 : fromHexDigit (hexDigitChar (b % 16)) = some (b % 16) :=
      fromHexDigit_hexDigitChar (b % 16) (by omega)
    have ih := hexDecodeLoop_encode bs (fun x hx => hB x (List.mem_cons_of_mem b hx)) (i + 2)
    simp only [bytes_to_hex, hexDecodeLoop, h1, h2, ih]
    have hbe : 16 * (b / 16) + b % 16 = b := by omega
    rw [hbe]

theorem hexDecodeLoop_decode : ∀ (H : List Char) (i : Nat), H.length % 2 = 0 →
    (∀ c ∈ H, c ∈ lowerHexChars) →
    ∃ bs, hexDecodeLoop H i = Except.ok bs ∧ bytes_to_hex bs = H
  | [], _, _, _ => ⟨[], rfl, rfl⟩
  | [_], _, hlen, _ => by simp at hlen
  | c1 :: c2 :: rest, i, hlen, hmem => by
    obtain ⟨n1, h1, hn1, hc1⟩ := lowerHex_spec (hmem c1 (by simp))
    obtain ⟨n2, h2, hn2, hc2⟩ := lowerHex_spec (hmem c2 (by simp))
    have hlen2 : rest.length % 2 = 0 := by
      simp only [List.length_cons] at hlen
      omega
    obtain ⟨bs, hbs, henc⟩ :=
      hexDecodeLoop_decode rest (i + 2) hlen2 (fun c hc => hmem c (by simp [hc]))
    refine ⟨(16 * n1 + n2) :: bs, ?_, ?_⟩
    · simp only [hexDecodeLoop, h1, h2, hbs]
    · have hd : (16 * n1 + n2) / 16 = n1 := by omega
      have hm : (16 * n1 + n2) % 16 = n2 := by omega
      simp only [bytes_to_hex, hd, hm, hc1, hc2, henc]

theorem hexDecodeLoop_ok_of_valid : ∀ (H : List Char) (i : Nat),
    (∀ c ∈ H, fromHexDigit c ≠ none) → ∃ bs, hexDecodeLoop H i = Except.ok bs
  | [], _, _ => ⟨[], rfl⟩
  | [_], _, _ => ⟨[], rfl⟩
  | c1 :: c2 :: rest, i, hmem => by
    cases h1 : fromHexDigit c1 with
    | none => exact absurd h1 (hmem c1 (by simp))
    | some n1 =>
      cases h2 : fromHexDigit c2 with
      | none => exact absurd h2 (hmem c2 (by simp))
      | some n2 =>
        obtain ⟨bs, hbs⟩ :=
          hexDecodeLoop_ok_of_valid rest (i + 2) (fun c hc => hmem c (by simp [hc]))
        exact ⟨(16 * n1 + n2) :: bs, by simp only [hexDecodeLoop, h1, h2, hbs]⟩

theorem hexDecodeLoop_error_of_invalid : ∀ (H : List Char) (i : Nat),
    H.length % 2 = 0 → (∃ c ∈ H, fromHexDigit c = none) →
    ∃ c j, hexDecodeLoop H i = Except.error (FromHexError.invalidHexCharacter c j)
  | [], _, _, hbad => by simp at hbad
  | [_], _, hlen, _ => by simp at hlen
  | c1 :: c2 :: rest, i, hlen, hbad => by
    cases h1 : fromHexDigit c1 with
    | none => exact ⟨c1, i, by simp only [hexDecodeLoop, h1]⟩
    | some n1 =>
      cases h2 : fromHexDigit c2 with
      | none => exact ⟨c2, i + 1, by simp only [hexDecodeLoop, h1, h2]⟩
      | some n2 =>
        have hlen2 : rest.length % 2 = 0 := by
          simp only [List.length_cons] at hlen
          omega
        have hbad2 : ∃ c ∈ rest, fromHexDigit c = none := by
          rcases hbad with ⟨c, hc, hnone⟩
          simp only [List.mem_cons] at hc
          rcases hc with rfl | rfl | hc
          · rw [h1] at hnone; exact absurd hnone (by simp)
          · rw [h2] at hnone; exact absurd hnone (by simp)
          · exact ⟨c, hc, hnone⟩
        obtain ⟨c, j, hcj⟩ := hexDecodeLoop_error_of_invalid rest (i + 2) hlen2 hbad2
        exact ⟨c, j, by simp only [hexDecodeLoop, h1, h2, hcj]⟩

/-- C4: decoding the hex text produced by encoding any byte sequence
yields the byte sequence back: `decode_hex (bytes_to_hex B)` succeeds
with exactly B. -/
theorem c4_encode_decode_round_trip (B : List Nat) (hB : ∀ b ∈ B, b < 256) :
    decode_hex (bytes_to_hex B) = Except.ok B := by
  have hlen := bytes_to_hex_length B
  unfold decode_hex hexDecode
  rw [if_neg (by rw [hlen]; omega)]
  rw [hexDecodeLoop_encode B hB 0]
  rfl

/-- Witness for C4: the round trip through `c4_encode_decode_round_trip`
at the concrete byte sequence [0x00, 0xAA, 0xBB]. -/
theorem c4_encode_decode_round_trip_witness :
    decode_hex (bytes_to_hex [0x00, 0xAA, 0xBB]) = Except.ok [0x00, 0xAA, 0xBB] :=
  c4_encode_decode_round_trip [0x00, 0xAA, 0xBB] (by decide)

/-- C5: for every even-length text of lower-case hex digits, decoding
succeeds and re-encoding the resulting bytes reproduces the text
exactly; and encoding always produces lower-case hex digits of length
exactly twice the byte count. -/
theorem c5_decode_encode_round_trip :
    (∀ H : List Char, H.length % 2 = 0 → (∀ c ∈ H, c ∈ lowerHexChars) →
      ∃ bs, hex_to_bytes H = Except.ok bs ∧ bytes_to_hex bs = H)
    ∧ (∀ B : List Nat, (∀ b ∈ B, b < 256) →
      (bytes_to_hex B).length = 2 * B.length
        ∧ ∀ c ∈ bytes_to_hex B, c ∈ lowerHexChars) := by
  constructor
  · intro H hlen hmem
    obtain ⟨bs, hbs, henc⟩ := hexDecodeLoop_decode H 0 hlen hmem
    refine ⟨bs, ?_, henc⟩
    unfold hex_to_bytes hexDecode
    rw [if_neg (by omega)]
    exact hbs
  · intro B hB
    exact ⟨bytes_to_hex_length B, bytes_to_hex_lower B hB⟩

/-- Witness for C5: `c5_decode_encode_round_trip` at the concrete text
"ab" and the concrete byte sequence [0xAB]. -/
theorem c5_decode_encode_round_trip_witness :
    (∃ bs, hex_to_bytes ['a', 'b'] = Except.ok bs ∧ bytes_to_hex bs = ['a', 'b'])
    ∧ (bytes_to_hex [0xAB]).length = 2 * [0xAB].length
    ∧ ∀ c ∈ bytes_to_hex [0xAB], c ∈ lowerHexChars :=
  ⟨c5_decode_encode_round_trip.1 ['a', 'b'] (by decide) (by decide),
   c5_decode_encode_round_trip.2 [0xAB] (by decide)⟩

/-- C9: on every input with a non-hex character or odd length, both
`hex_to_bytes` and `decode_hex` fail, the latter with the structured
failure's description prefixed by "Failed to decode hex: "; on every
well-formed input both succeed with the same byte sequence. -/
theorem c9_decode_error_reporting (s : List Char) :
    ((s.length % 2 ≠ 0 ∨ ∃ c ∈ s, fromHexDigit c = none) →
      ∃ e, hex_to_bytes s = Except.error e
        ∧ decode_hex s = Except.error ("Failed to decode hex: " ++ e.message))
    ∧ ((s.length % 2 = 0 ∧ ∀ c ∈ s, fromHexDigit c ≠ none) →
      ∃ bs, hex_to_bytes s = Except.ok bs ∧ decode_hex s = Except.ok bs) := by
  constructor
  · intro hbad
    by_cases hodd : s.length % 2 = 0
    · have hbad2 : ∃ c ∈ s, fromHexDigit c = none := by
        rcases hbad with h | h
        · exact absurd hodd h
        · exact h
      obtain ⟨c, j, hcj⟩ := hexDecodeLoop_error_of_invalid s 0 hodd hbad2
      refine ⟨FromHexError.invalidHexCharacter c j, ?_, ?_⟩
      · unfold hex_to_bytes hexDecode
        rw [if_neg (by omega)]
        exact hcj
      · unfold decode_hex hexDecode
        rw [if_neg (by omega), hcj]
        rfl
    · refine ⟨FromHexError.oddLength, ?_, ?_⟩
      · unfold hex_to_bytes hexDecode
        rw [if_pos hodd]
      · unfold decode_hex hexDecode
        rw [if_pos hodd]
        rfl
  · rintro ⟨hlen, hval⟩
    obtain ⟨bs, hbs⟩ := hexDecodeLoop_ok_of_valid s 0 hval
    refine ⟨bs, ?_, ?_⟩
    · unfold hex_to_bytes hexDecode
      rw [if_neg (by omega)]
      exact hbs
    · unfold decode_hex hexDecode
      rw [if_neg (by omega), hbs]
      rfl

/-- Witness for C9: `c9_decode_error_reporting` at the spec's failing
inputs "zz" (invalid character) and "abc" (odd length), and at the valid
input "ab". -/
theorem c9_decode_error_reporting_witness :
    (∃ e, hex_to_bytes ['z', 'z'] = Except.error e
      ∧ decode_hex ['z', 'z'] = Except.error ("Failed to decode hex: " ++ e.message))
    ∧ (∃ e, hex_to_bytes ['a', 'b', 'c'] = Except.error e
      ∧ decode_hex ['a', 'b', 'c'] = Except.error ("Failed to decode hex: " ++ e.message))
    ∧ (∃ bs, hex_to_bytes ['a', 'b'] = Except.ok bs
      ∧ decode_hex ['a', 'b'] = Except.ok bs) :=
  ⟨(c9_decode_error_reporting ['z', 'z']).1 (Or.inr (by decide)),
   (c9_decode_error_reporting ['a', 'b', 'c']).1 (Or.inl (by decide)),
   (c9_decode_error_reporting ['a', 'b']).2 ⟨by decide, by decide⟩⟩

end RustWeek2
